import Mathlib

/-!
Verification development for the lineup optimizer service (`main.py`).

The service receives a roster of players, a number of game innings, optional
fixed assignments, historical per-position counts and per-player preference
sets.  It builds a binary assignment model (one variable per player, inning
and position), solves it with an external MILP solver under a time limit, and
extracts a per-player, per-inning position table from the solved variable
values.

The definitions below are a shallow embedding of that code: Python floats are
modelled as rationals, the solver's variable values as `Option ℚ` (a `none`
models PuLP's `None` value), and the request handler's error routing as a
small result type.  Source line references point into `main.py`.
-/

/-- All positions, `main.py` line 30. -/
def POSITIONS : List String := ["CF", "LF", "RF", "SS", "1B", "2B", "3B", "P", "C", "OUT"]

/-- The nine main positions, `main.py` line 31. -/
def MAIN_POSITIONS : List String := ["CF", "LF", "RF", "SS", "1B", "2B", "3B", "P", "C"]

/-- Penalty for assigning a restricted position, `main.py` line 25. -/
def RESTRICTED_POSITION_PENALTY : ℚ := 1000

/-- Penalty for assigning an acceptable but not preferred position, `main.py` line 26. -/
def NOT_PREFERRED_PENALTY : ℚ := 10

/-- Weight of the bench-fairness deviation term, `main.py` line 27. -/
def BENCH_DEVIATION_WEIGHT : ℚ := 1

/-- Solver wall-clock budget in seconds, `main.py` line 28. -/
def SOLVER_TIME_LIMIT : ℕ := 55

/-- Numeric value of a list of decimal digit characters. -/
def digitsVal (l : List Char) : ℕ := l.foldl (fun n c => 10 * n + (c.toNat - 48)) 0

/-- Parse a nonempty all-digit character list, as the core of Python's `int`. -/
def digitsToNat? (l : List Char) : Option ℕ :=
  if l ≠ [] ∧ l.all Char.isDigit then some (digitsVal l) else none

/-- Models Python's `int(s)` on strings (decimal core: optional sign then
digits; anything else raises `ValueError`, modelled as `none`). Used by the
fixed-assignment parsing at `main.py` line 128. -/
def parseInt? (s : String) : Option ℤ :=
  match s.toList with
  | '-' :: rest => (digitsToNat? rest).map (fun n => -(n : ℤ))
  | '+' :: rest => (digitsToNat? rest).map (fun n => (n : ℤ))
  | l => (digitsToNat? l).map (fun n => (n : ℤ))

/-- Unsigned decimal float literal: digits, optionally a dot and more digits. -/
def parseUFloat? (l : List Char) : Option ℚ :=
  match l.span Char.isDigit with
  | (ip, []) => if ip ≠ [] then some ((digitsVal ip : ℚ)) else none
  | (ip, '.' :: fp) =>
      if fp.all Char.isDigit ∧ (ip ≠ [] ∨ fp ≠ []) then
        some ((digitsVal ip : ℚ) + (digitsVal fp : ℚ) / ((10 : ℚ) ^ fp.length))
      else none
  | _ => none

/-- Models Python's `float(s)` on strings (decimal core; a string that does
not parse raises `ValueError`, modelled as `none`). -/
def parseFloat? (s : String) : Option ℚ :=
  match s.toList with
  | '-' :: rest => (parseUFloat? rest).map (fun q => -q)
  | '+' :: rest => parseUFloat? rest
  | l => parseUFloat? l

/-- A JSON value as delivered by `request.get_json()`. -/
inductive JVal where
  | null
  | bool (b : Bool)
  | num (q : ℚ)
  | str (s : String)
  | arr (elems : List JVal)
  | obj (fields : List (String × JVal))

/-- The two Python exception kinds relevant to count normalization:
`float("x")` on a bad string raises `ValueError`; `float(None)`, `float([])`
or `float({})` raise `TypeError`. -/
inductive PyErr where
  | valueError
  | typeError
deriving DecidableEq

/-- Models Python's `float(v)` applied to a JSON value: numbers and booleans
convert, numeric strings parse, non-numeric strings raise `ValueError`, and
`null`, arrays and objects raise `TypeError`. Used at `main.py` line 87. -/
def pyFloat : JVal → Except PyErr ℚ
  | .num q => .ok q
  | .bool b => .ok (if b then 1 else 0)
  | .str s =>
      match parseFloat? s with
      | some q => .ok q
      | none => .error .valueError
  | .null => .error .typeError
  | .arr _ => .error .typeError
  | .obj _ => .error .typeError

/-- Dictionary lookup on a JSON-object field list (`dict.get`). -/
def jlookup (fields : List (String × JVal)) (k : String) : Option JVal :=
  (fields.find? (fun e => e.1 == k)).map (fun e => e.2)

/-- `actual_counts_input.get(p_id, {})` with the non-dict fallback to `{}`,
`main.py` lines 83-86. -/
def countsDictOf (acInput : List (String × JVal)) (p : String) : List (String × JVal) :=
  match jlookup acInput p with
  | some (.obj fields) => fields
  | _ => []

/-- One normalized count: `float(counts.get(pos, 0))`, `main.py` line 87.
A missing entry defaults to `float(0) = 0`. -/
def normCount (acInput : List (String × JVal)) (p pos : String) : Except PyErr ℚ :=
  match jlookup (countsDictOf acInput p) pos with
  | some v => pyFloat v
  | none => .ok 0

/-- One player's normalized count row over all `POSITIONS` (the dict
comprehension at `main.py` line 87); the first conversion failure aborts. -/
def normCountsRow (acInput : List (String × JVal)) (p : String) :
    Except PyErr (List (String × ℚ)) :=
  POSITIONS.foldr
    (fun pos acc => do
      let q ← normCount acInput p pos
      let rest ← acc
      pure ((pos, q) :: rest))
    (.ok [])

/-- The whole `actual_counts` preprocessing loop, `main.py` lines 81-87. -/
def normalizeCounts (players : List String) (acInput : List (String × JVal)) :
    Except PyErr (List (String × List (String × ℚ))) :=
  players.foldr
    (fun p acc => do
      let row ← normCountsRow acInput p
      let rest ← acc
      pure ((p, row) :: rest))
    (.ok [])

/-- HTTP status the handler produces for a Python exception: `ValueError` is
caught at `main.py` line 215 and answered with 400; every other exception
(in particular `TypeError`) falls to the generic handler at line 219 and is
answered with 500. -/
def httpStatusOfPyErr : PyErr → ℕ
  | .valueError => 400
  | .typeError => 500

/-- A normalized request, after the input parsing of `main.py` lines 49-97:
`actual_counts` is the normalized (total, defaulted) count table of line 87,
`preferred`/`restricted` the per-player sets of lines 158-159, and
`fixed_assignments` the raw player -> (inning text -> position) mapping. -/
structure Request where
  players : List String
  game_innings : ℕ
  actual_counts : String → String → ℚ
  preferred : String → List String
  restricted : String → List String
  fixed_assignments : List (String × List (String × String))

/-- The inning indices `range(1, game_innings + 1)` of `main.py`. -/
def innings (req : Request) : List ℕ := List.range' 1 req.game_innings

/-- The fixed-assignment triples that actually become constraints,
`main.py` lines 120-136: the player must be on the roster, the inning text
must parse as an integer in `1..game_innings`, and the position must be
known; every other entry is skipped. -/
def addedFixed (req : Request) : List (String × ℕ × String) :=
  req.fixed_assignments.flatMap (fun pa =>
    if pa.1 ∈ req.players then
      pa.2.filterMap (fun e =>
        match parseInt? e.1 with
        | some i =>
            if 1 ≤ i ∧ i ≤ (req.game_innings : ℤ) ∧ e.2 ∈ POSITIONS then
              some (pa.1, i.toNat, e.2)
            else none
        | none => none)
    else [])

/-- What happens to one fixed-assignment entry in `main.py` lines 120-136:
it either becomes a constraint, or is skipped with a printed warning, or is
skipped silently (a non-roster player hits the bare `continue` at line 122;
an out-of-range inning with a known position falls through both branches at
lines 130-133). -/
inductive FixedOutcome where
  | added
  | skippedWarned
  | skippedSilent
deriving DecidableEq

/-- Classify one fixed-assignment entry, following `main.py` lines 120-136. -/
def fixedEntryOutcome (players : List String) (g : ℕ)
    (p_id inning_str fixed_pos : String) : FixedOutcome :=
  if p_id ∈ players then
    match parseInt? inning_str with
    | none => .skippedWarned
    | some i =>
        if 1 ≤ i ∧ i ≤ (g : ℤ) ∧ fixed_pos ∈ POSITIONS then .added
        else if fixed_pos ∉ POSITIONS then .skippedWarned
        else .skippedSilent
  else .skippedSilent

/-- `total_current[p_id]`, `main.py` lines 89-91. -/
def total_current (req : Request) (p : String) : ℚ :=
  (POSITIONS.map (req.actual_counts p)).sum

/-- `total_actual_out`, `main.py` line 93. -/
def total_actual_out (req : Request) : ℚ :=
  (req.players.map (fun p => req.actual_counts p "OUT")).sum

/-- `total_new_out`, `main.py` line 94. -/
def total_new_out (req : Request) : ℚ :=
  (req.game_innings : ℚ) *
    ((max 0 ((req.players.length : ℤ) - (MAIN_POSITIONS.length : ℤ)) : ℤ) : ℚ)

/-- `sum_T`, `main.py` line 96. -/
def sum_T (req : Request) : ℚ :=
  (req.players.map (total_current req)).sum +
    (req.game_innings : ℚ) * (req.players.length : ℚ)

/-- `target_bench_ratio`, `main.py` line 97. -/
def target_bench_ratio (req : Request) : ℚ :=
  if 0 < sum_T req then (total_actual_out req + total_new_out req) / sum_T req else 0

/-- `target_bench_innings` for one player, `main.py` line 144. -/
def target_bench_innings (req : Request) (p : String) : ℚ :=
  target_bench_ratio req * (total_current req p + (req.game_innings : ℚ))

/-- A 0/1 assignment of the binary variables `X[p][i][pos]`. -/
abbrev Asg := String → ℕ → String → Bool

/-- Solver variable values as read back by `value(...)`; `none` models
PuLP's `None`. -/
abbrev Vals := String → ℕ → String → Option ℚ

/-- Constraint family 1, `main.py` lines 110-113: each player takes exactly
one position per inning. -/
def onePosOk (req : Request) (asg : Asg) : Prop :=
  ∀ p ∈ req.players, ∀ i ∈ innings req,
    POSITIONS.countP (fun pos => asg p i pos) = 1

/-- Constraint family 2, `main.py` lines 115-118: each main position is
occupied by exactly one player per inning. -/
def mainPosOk (req : Request) (asg : Asg) : Prop :=
  ∀ i ∈ innings req, ∀ pos ∈ MAIN_POSITIONS,
    req.players.countP (fun p => asg p i pos) = 1

/-- Constraint family 3, `main.py` lines 120-136: every accepted fixed
assignment forces its variable to 1. -/
def fixedOk (req : Request) (asg : Asg) : Prop :=
  ∀ t ∈ addedFixed req, asg t.1 t.2.1 t.2.2 = true

/-- A 0/1 assignment satisfying all hard constraints of the model. -/
def feasibleAsg (req : Request) (asg : Asg) : Prop :=
  onePosOk req asg ∧ mainPosOk req asg ∧ fixedOk req asg

/-- The preference-penalty coefficient charged on `X[p][i][pos]` by the loop
at `main.py` lines 161-168: restricted positions cost
`RESTRICTED_POSITION_PENALTY`; otherwise any position other than `"OUT"`
that is not preferred costs `NOT_PREFERRED_PENALTY`; otherwise nothing. -/
def prefCoeff (preferred restricted : List String) (pos : String) : ℚ :=
  if pos ∈ restricted then RESTRICTED_POSITION_PENALTY
  else if pos ≠ "OUT" ∧ pos ∉ preferred then NOT_PREFERRED_PENALTY
  else 0

/-- Preference penalty collected over one (player, inning) row of variables. -/
def rowPenalty (preferred restricted : List String) (rowAsg : String → Bool) : ℚ :=
  (POSITIONS.map
    (fun pos => prefCoeff preferred restricted pos * (if rowAsg pos then 1 else 0))).sum

/-- The whole preference-penalty objective term, `main.py` lines 151-168. -/
def prefPenaltyTotal (req : Request) (asg : Asg) : ℚ :=
  (req.players.map (fun p =>
    ((innings req).map
      (fun i => rowPenalty (req.preferred p) (req.restricted p) (fun pos => asg p i pos))).sum)).sum

/-- Newly assigned bench innings of a player, the `lpSum` of `main.py` line 141. -/
def benchInnings (req : Request) (asg : Asg) (p : String) : ℕ :=
  (innings req).countP (fun i => asg p i "OUT")

/-- `final_bench_innings`, `main.py` line 146. -/
def finalBench (req : Request) (asg : Asg) (p : String) : ℚ :=
  req.actual_counts p "OUT" + (benchInnings req asg p : ℚ)

/-- The deviation variables `d[p]` with their bound `lowBound=0` and the pair
of linearization constraints of `main.py` lines 142-148. -/
def devOk (req : Request) (asg : Asg) (d : String → ℚ) : Prop :=
  ∀ p ∈ req.players,
    0 ≤ d p ∧
    finalBench req asg p - target_bench_innings req p ≤ d p ∧
    target_bench_innings req p - finalBench req asg p ≤ d p

/-- The objective `TotalObjective`, `main.py` lines 149 and 171. -/
def objVal (req : Request) (asg : Asg) (d : String → ℚ) : ℚ :=
  BENCH_DEVIATION_WEIGHT * (req.players.map d).sum + prefPenaltyTotal req asg

/-- A feasible point of the MILP (binary variables plus deviation variables). -/
def milpFeasible (req : Request) (asg : Asg) (d : String → ℚ) : Prop :=
  feasibleAsg req asg ∧ devOk req asg d

/-- An optimal solution of the MILP: feasible and of minimal objective among
all feasible points.  This is the contract of the solver's `Optimal` status. -/
def milpOptimal (req : Request) (asg : Asg) (d : String → ℚ) : Prop :=
  milpFeasible req asg d ∧
    ∀ asg2 d2, milpFeasible req asg2 d2 → objVal req asg d ≤ objVal req asg2 d2

/-- Python's `round` (banker's rounding: ties go to the even integer), as
used at `main.py` line 206. -/
def pyRound (q : ℚ) : ℤ :=
  if q - (Int.floor q : ℚ) < 1 / 2 then Int.floor q
  else if (1 : ℚ) / 2 < q - (Int.floor q : ℚ) then Int.floor q + 1
  else if Even (Int.floor q) then Int.floor q else Int.floor q + 1

/-- The per-variable test of `main.py` line 206:
`var_value is not None and round(var_value) == 1`. -/
def passesThreshold (v : Option ℚ) : Bool :=
  match v with
  | some q => pyRound q == 1
  | none => false

/-- Result extraction for one (player, inning) cell, `main.py` lines 203-209:
the first position whose value rounds to 1, else the sentinel `"ERR"`. -/
def extractCell (vals : String → Option ℚ) : String :=
  (POSITIONS.find? (fun pos => passesThreshold (vals pos))).getD "ERR"

/-- The whole output table, `main.py` lines 199-210. -/
def extractTable (req : Request) (vals : Vals) : List (String × List (ℕ × String)) :=
  req.players.map (fun p =>
    (p, (innings req).map (fun i => (i, extractCell (fun pos => vals p i pos)))))

/-- The PuLP termination statuses imported at `main.py` lines 16-21. -/
inductive LpStat where
  | optimal
  | notSolved
  | infeasible
  | unbounded
  | undefined
deriving DecidableEq

/-- What the endpoint answers with: a lineup (HTTP 200), a `ValueError`-routed
client error (HTTP 400), or an internal error (HTTP 500). -/
inductive OptResult where
  | lineup (table : List (String × List (ℕ × String)))
  | clientError (msg : String)
  | serverError (msg : String)

/-- The infeasibility message, `main.py` line 184. -/
def infeasibleMsg : String :=
  "Optimization failed: Infeasible. Check conflicting fixed assignments or constraints."

/-- The timeout message, `main.py` line 194. -/
def timeoutMsg : String :=
  "Optimization failed: Solver timed out (55s) before finding a feasible solution."

/-- The check of `main.py` line 193: some variable value is `None`. -/
def hasUndefinedVal (req : Request) (vals : Vals) : Bool :=
  req.players.any (fun p =>
    (innings req).any (fun i => POSITIONS.any (fun pos => (vals p i pos).isNone)))

/-- Result processing, `main.py` lines 183-213: infeasible raises a
`ValueError` (routed to HTTP 400), then any `None` variable value raises the
timeout `ValueError` (HTTP 400), otherwise the extracted table is returned. -/
def processResults (req : Request) (status : LpStat) (vals : Vals) : OptResult :=
  if status = .infeasible then .clientError infeasibleMsg
  else if hasUndefinedVal req vals then .clientError timeoutMsg
  else .lineup (extractTable req vals)

/-- HTTP status of a response, `main.py` lines 213, 218, 225. -/
def httpStatusOf : OptResult → ℕ
  | .lineup _ => 200
  | .clientError _ => 400
  | .serverError _ => 500

/-- A variable of the MILP: a binary assignment variable `X[p][i][pos]` or a
continuous deviation variable `d[p]`. -/
inductive MVar where
  | x (p : String) (i : ℕ) (pos : String)
  | d (p : String)
deriving DecidableEq

/-- Relation of a linear constraint. -/
inductive LRel where
  | le
  | eq
deriving DecidableEq

/-- A linear constraint `sum of coeff * var REL rhs`. -/
structure LinCon where
  lhs : List (ℚ × MVar)
  rel : LRel
  rhs : ℚ
deriving DecidableEq

/-- The constraints added to the PuLP problem, in the order `main.py` builds
them (lines 110-118, 120-136, 142-148): one-position-per-player-per-inning
equalities, one-player-per-main-position equalities, fixed-assignment
equalities, and the two deviation inequalities per player (with the variable
terms moved to the left and constants to the right). -/
def buildConstraints (req : Request) : List LinCon :=
  (req.players.flatMap (fun p => (innings req).map (fun i =>
    (⟨POSITIONS.map (fun pos => ((1 : ℚ), MVar.x p i pos)), LRel.eq, 1⟩ : LinCon))))
  ++ ((innings req).flatMap (fun i => MAIN_POSITIONS.map (fun pos =>
    (⟨req.players.map (fun p => ((1 : ℚ), MVar.x p i pos)), LRel.eq, 1⟩ : LinCon))))
  ++ ((addedFixed req).map (fun t =>
    (⟨[((1 : ℚ), MVar.x t.1 t.2.1 t.2.2)], LRel.eq, 1⟩ : LinCon)))
  ++ (req.players.flatMap (fun p =>
    [(⟨((innings req).map (fun i => ((1 : ℚ), MVar.x p i "OUT"))) ++ [((-1 : ℚ), MVar.d p)],
       LRel.le, target_bench_innings req p - req.actual_counts p "OUT"⟩ : LinCon),
     (⟨((innings req).map (fun i => ((-1 : ℚ), MVar.x p i "OUT"))) ++ [((-1 : ℚ), MVar.d p)],
       LRel.le, req.actual_counts p "OUT" - target_bench_innings req p⟩ : LinCon)]))

/-- Whether a variable is a bench assignment variable `X[p][i]["OUT"]`. -/
def MVar.isOutX : MVar → Bool
  | .x _ _ pos => pos == "OUT"
  | .d _ => false

/-- Whether a constraint is a bench-count equality: an equality whose
nonempty left side mentions only bench variables `X[_][_]["OUT"]`. Any
rendering of "sum over players of the inning's bench variables equals the
bench count" satisfies this. -/
def isBenchSumEqB (c : LinCon) : Bool :=
  match c.rel with
  | .eq => !c.lhs.isEmpty && c.lhs.all (fun t => t.2.isOutX)
  | .le => false

/-- Whether the built model contains any bench-count equality constraint. -/
def hasBenchSumEq (req : Request) : Bool :=
  (buildConstraints req).any isBenchSumEqB

/-- The all-zero historical count table. -/
def zeroCounts : String → String → ℚ := fun _ _ => 0

/-- Empty preference sets for every player. -/
def noPrefs : String → List String := fun _ => []

/-- A nine-player roster used in concrete instances. -/
def players9 : List String := ["P1", "P2", "P3", "P4", "P5", "P6", "P7", "P8", "P9"]

/-- A ten-player roster used in concrete instances. -/
def players10 : List String := players9 ++ ["P10"]

/-- Nine players, one inning, no history, no preferences, no fixed entries. -/
def reqW1 : Request := ⟨players9, 1, zeroCounts, noPrefs, noPrefs, []⟩

/-- A bijective placement of the nine players on the nine main positions. -/
def asgPairs9 : List (String × String) :=
  [("P1", "CF"), ("P2", "LF"), ("P3", "RF"), ("P4", "SS"), ("P5", "1B"),
   ("P6", "2B"), ("P7", "3B"), ("P8", "P"), ("P9", "C")]

/-- The assignment realizing `asgPairs9` in inning 1. -/
def asgW1 : Asg := fun p i pos => i == 1 && decide ((p, pos) ∈ asgPairs9)

/-- Exact binary solver values encoding an assignment. -/
def valsOf (asg : Asg) : Vals := fun p i pos => some (if asg p i pos then 1 else 0)

/-- Solver values that are all `None` (timeout before any incumbent). -/
def valsNone : Vals := fun _ _ _ => none

/-- Ten players, one inning: request for the bench-count constraint check. -/
def reqC2 : Request := ⟨players10, 1, zeroCounts, noPrefs, noPrefs, []⟩

/-- Every main position except center field. -/
def restrNoCF : List String := ["LF", "RF", "SS", "1B", "2B", "3B", "P", "C"]

/-- Nine players, one inning; `P1` and `P2` are both restricted on every main
position except `CF`, everyone prefers every main position. -/
def reqC8 : Request :=
  ⟨players9, 1, zeroCounts, fun _ => MAIN_POSITIONS,
   fun p => if p == "P1" || p == "P2" then restrNoCF else [], []⟩

/-- Placement giving `P1` the restricted position `C` and `P2` the free `CF`. -/
def asgApairs : List (String × String) :=
  [("P1", "C"), ("P2", "CF"), ("P3", "LF"), ("P4", "RF"), ("P5", "SS"),
   ("P6", "1B"), ("P7", "2B"), ("P8", "3B"), ("P9", "P")]

/-- The assignment realizing `asgApairs` in inning 1. -/
def asgA : Asg := fun p i pos => i == 1 && decide ((p, pos) ∈ asgApairs)

/-- Placement giving `P1` the free `CF` and `P2` the restricted `C`. -/
def asgBpairs : List (String × String) :=
  [("P1", "CF"), ("P2", "C"), ("P3", "LF"), ("P4", "RF"), ("P5", "SS"),
   ("P6", "1B"), ("P7", "2B"), ("P8", "3B"), ("P9", "P")]

/-- The assignment realizing `asgBpairs` in inning 1. -/
def asgB : Asg := fun p i pos => i == 1 && decide ((p, pos) ∈ asgBpairs)

/-- Deviation variables all set to zero. -/
def zeroD : String → ℚ := fun _ => 0

/-- Nine players, one inning; only `P1` has a restriction (catcher), which the
placement `asgW1` avoids. -/
def reqW8 : Request :=
  ⟨players9, 1, zeroCounts, fun _ => MAIN_POSITIONS,
   fun p => if p == "P1" then ["C"] else [], []⟩

/-- Nine players, one inning, one valid fixed assignment (`P1` to `CF` in
inning 1). -/
def reqW5 : Request := ⟨players9, 1, zeroCounts, noPrefs, noPrefs, [("P1", [("1", "CF")])]⟩

/-- Six innings, with a fixed assignment naming the out-of-range inning 7. -/
def reqC5bad : Request := ⟨players9, 6, zeroCounts, noPrefs, noPrefs, [("P1", [("7", "CF")])]⟩

/-- A valid three-player roster (too small for the nine main positions). -/
def req3 : Request := ⟨["A", "B", "Z"], 1, zeroCounts, noPrefs, noPrefs, []⟩

/-- An `actual_counts` input whose `CF` entry for `P1` is JSON `null`. -/
def acBad : List (String × JVal) := [("P1", JVal.obj [("CF", JVal.null)])]

/-- One cell row of solver values: 1 on `CF`, 0 elsewhere. -/
def valsW7 : String → Option ℚ := fun pos => if pos == "CF" then some 1 else some 0

/-- Absolute bench deviation of a player under an assignment. -/
def devAbs (req : Request) (asg : Asg) (p : String) : ℚ :=
  |finalBench req asg p - target_bench_innings req p|

instance decOnePosOk (req : Request) (asg : Asg) : Decidable (onePosOk req asg) :=
  inferInstanceAs (Decidable (∀ p ∈ req.players, ∀ i ∈ innings req,
    POSITIONS.countP (fun pos => asg p i pos) = 1))

instance decMainPosOk (req : Request) (asg : Asg) : Decidable (mainPosOk req asg) :=
  inferInstanceAs (Decidable (∀ i ∈ innings req, ∀ pos ∈ MAIN_POSITIONS,
    req.players.countP (fun p => asg p i pos) = 1))

instance decFixedOk (req : Request) (asg : Asg) : Decidable (fixedOk req asg) :=
  inferInstanceAs (Decidable (∀ t ∈ addedFixed req, asg t.1 t.2.1 t.2.2 = true))

instance decFeasibleAsg (req : Request) (asg : Asg) : Decidable (feasibleAsg req asg) :=
  inferInstanceAs (Decidable (onePosOk req asg ∧ mainPosOk req asg ∧ fixedOk req asg))

theorem sum_map_zero_q {α : Type} (l : List α) : (l.map (fun _ => (0 : ℚ))).sum = 0 := by
  induction l with
  | nil => rfl
  | cons a t ih => simp [ih]

theorem sum_map_add_n {α : Type} (l : List α) (f g : α → ℕ) :
    (l.map (fun a => f a + g a)).sum = (l.map f).sum + (l.map g).sum := by
  induction l with
  | nil => simp
  | cons a t ih => simp only [List.map_cons, List.sum_cons, ih]; omega

theorem sum_map_add_q {α : Type} (l : List α) (f g : α → ℚ) :
    (l.map (fun a => f a + g a)).sum = (l.map f).sum + (l.map g).sum := by
  induction l with
  | nil => simp
  | cons a t ih => simp only [List.map_cons, List.sum_cons, ih]; ring

theorem countP_eq_sum_ite {α : Type} (l : List α) (p : α → Bool) :
    l.countP p = (l.map (fun b => if p b then 1 else 0)).sum := by
  induction l with
  | nil => rfl
  | cons a t ih =>
      by_cases h : p a <;>
        simp only [List.countP_cons, List.map_cons, List.sum_cons, h, ih, if_true, if_false] <;>
        omega

theorem countP_map_sum_comm {α β : Type} (l1 : List α) (l2 : List β) (P : α → β → Bool) :
    (l1.map (fun a => l2.countP (fun b => P a b))).sum
      = (l2.map (fun b => l1.countP (fun a => P a b))).sum := by
  induction l1 with
  | nil => simp
  | cons a t ih =>
      simp only [List.map_cons, List.sum_cons, ih]
      have h1 : l2.map (fun b => List.countP (fun a2 => P a2 b) (a :: t))
          = l2.map (fun b =>
              (fun b2 => List.countP (fun a2 => P a2 b2) t) b + (fun b2 => if P a b2 then 1 else 0) b) := by
        refine List.map_congr_left (fun b _ => ?_)
        by_cases h : P a b <;> simp [List.countP_cons, h]
      rw [h1, sum_map_add_n, ← countP_eq_sum_ite l2 (fun b => P a b)]
      omega

theorem sum_map_ones {α : Type} (l : List α) (f : α → ℕ) (h : ∀ a ∈ l, f a = 1) :
    (l.map f).sum = l.length := by
  induction l with
  | nil => rfl
  | cons a t ih =>
      simp only [List.map_cons, List.sum_cons, List.length_cons,
        h a (List.mem_cons_self a t), ih (fun x hx => h x (List.mem_cons_of_mem a hx))]
      omega

theorem sum_map_const_q {α : Type} (l : List α) (c : ℚ) :
    (l.map (fun _ => c)).sum = (l.length : ℚ) * c := by
  induction l with
  | nil => simp
  | cons a t ih => simp only [List.map_cons, List.sum_cons, List.length_cons, ih]; push_cast; ring

theorem sum_map_nonneg_q {α : Type} (l : List α) (f : α → ℚ) (h : ∀ a ∈ l, 0 ≤ f a) :
    0 ≤ (l.map f).sum := by
  refine List.sum_nonneg ?_
  intro x hx
  obtain ⟨a, ha, rfl⟩ := List.mem_map.mp hx
  exact h a ha

theorem le_sum_of_mem_q {α : Type} (l : List α) (f : α → ℚ) (a : α)
    (ha : a ∈ l) (h : ∀ x ∈ l, 0 ≤ f x) : f a ≤ (l.map f).sum := by
  induction l with
  | nil => simp at ha
  | cons x t ih =>
      rcases List.mem_cons.mp ha with rfl | hat
      · simp only [List.map_cons, List.sum_cons]
        have h0 : 0 ≤ (t.map f).sum :=
          sum_map_nonneg_q t f (fun y hy => h y (List.mem_cons_of_mem _ hy))
        linarith
      · simp only [List.map_cons, List.sum_cons]
        have h0 : 0 ≤ f x := h x (List.mem_cons_self x t)
        have h2 := ih hat (fun y hy => h y (List.mem_cons_of_mem _ hy))
        linarith

theorem filter_singleton_spec {α : Type} (l : List α) (p : α → Bool) (h : l.countP p = 1) :
    ∃ a, l.filter p = [a] ∧ a ∈ l ∧ p a = true ∧ ∀ b ∈ l, p b = true → b = a := by
  rw [List.countP_eq_length_filter] at h
  obtain ⟨a, ha⟩ := List.length_eq_one.mp h
  have hamem : a ∈ l.filter p := by rw [ha]; exact List.mem_cons_self a []
  refine ⟨a, ha, (List.mem_filter.mp hamem).1, (List.mem_filter.mp hamem).2, ?_⟩
  intro b hb hpb
  have hbf : b ∈ l.filter p := List.mem_filter.mpr ⟨hb, hpb⟩
  rw [ha] at hbf
  simpa using hbf

theorem find?_of_filter_singleton {α : Type} (l : List α) (p : α → Bool) (a : α)
    (h : l.filter p = [a]) : l.find? p = some a := by
  induction l with
  | nil => simp at h
  | cons x t ih =>
      by_cases hx : p x
      · rw [List.filter_cons_of_pos hx] at h
        have hx2 : x = a ∧ t.filter p = [] := by
          constructor
          · exact (List.cons_eq_cons.mp h).1
          · exact (List.cons_eq_cons.mp h).2
        rw [List.find?_cons_of_pos _ hx, hx2.1]
      · rw [List.filter_cons_of_neg hx] at h
        rw [List.find?_cons_of_neg _ hx]
        exact ih h

theorem sum_ite_singleton {α : Type} (l : List α) (c : α → ℚ) (f : α → Bool) (a : α)
    (h : l.filter f = [a]) :
    (l.map (fun x => c x * (if f x then 1 else 0))).sum = c a := by
  induction l with
  | nil => simp at h
  | cons x t ih =>
      by_cases hx : f x
      · rw [List.filter_cons_of_pos hx] at h
        have hxa : x = a := (List.cons_eq_cons.mp h).1
        have htf : t.filter f = [] := (List.cons_eq_cons.mp h).2
        subst hxa
        have hz : ∀ y ∈ t, (fun y2 => c y2 * (if f y2 then 1 else 0)) y = (fun _ => (0 : ℚ)) y := by
          intro y hy
          have hfy : f y = false := by
            by_cases hfy : f y
            · exfalso
              have : y ∈ t.filter f := List.mem_filter.mpr ⟨hy, hfy⟩
              rw [htf] at this
              simp at this
            · simpa using hfy
          simp [hfy]
        simp only [List.map_cons, List.sum_cons, hx, if_true,
          List.map_congr_left hz, sum_map_zero_q]
        ring
      · rw [List.filter_cons_of_neg hx] at h
        simp only [List.map_cons, List.sum_cons, hx, if_false, ih h]
        simp

theorem two_le_countP {α : Type} [DecidableEq α] (l : List α) (p : α → Bool) (a b : α)
    (ha : a ∈ l) (hb : b ∈ l) (hab : a ≠ b) (hpa : p a = true) (hpb : p b = true) :
    2 ≤ l.countP p := by
  have hperm := List.perm_cons_erase ha
  rw [hperm.countP_eq p]
  rw [List.countP_cons]
  have hbmem : b ∈ l.erase a := (List.mem_erase_of_ne (fun hba => hab hba.symm)).mpr hb
  have hpos : 0 < (l.erase a).countP p := List.countP_pos.mpr ⟨b, hbmem, hpb⟩
  simp only [hpa, if_true]
  omega

theorem pyRound_one : pyRound 1 = 1 := by
  unfold pyRound
  rw [Int.floor_one]
  norm_num

theorem pyRound_zero : pyRound 0 = 0 := by
  unfold pyRound
  rw [Int.floor_zero]
  norm_num

theorem pyRound_eq_one_iff (v : ℚ) (h0 : 0 ≤ v) (h1 : v ≤ 1) :
    pyRound v = 1 ↔ 1 / 2 < v := by
  rcases eq_or_lt_of_le h1 with rfl | hlt
  · simp only [pyRound_one]
    norm_num
  · have hf : Int.floor v = 0 := Int.floor_eq_zero_iff.mpr ⟨h0, hlt⟩
    unfold pyRound
    rw [hf]
    by_cases hc : v - ((0 : ℤ) : ℚ) < 1 / 2
    · rw [if_pos hc]
      constructor
      · intro h
        exact absurd h (by norm_num)
      · intro h
        exfalso
        push_cast at hc
        linarith
    · rw [if_neg hc]
      by_cases hc2 : (1 : ℚ) / 2 < v - ((0 : ℤ) : ℚ)
      · rw [if_pos hc2]
        push_cast at hc2
        constructor
        · intro _
          linarith
        · intro _
          rfl
      · rw [if_neg hc2]
        rw [if_pos (by exact even_zero)]
        constructor
        · intro h
          exact absurd h (by norm_num)
        · intro h
          exfalso
          push_cast at hc2
          linarith

theorem positions_split : POSITIONS = MAIN_POSITIONS ++ ["OUT"] := rfl

theorem main_mem_positions : ∀ pos ∈ MAIN_POSITIONS, pos ∈ POSITIONS := by decide

theorem main_ne_out : ∀ pos ∈ MAIN_POSITIONS, pos ≠ "OUT" := by decide

theorem out_mem_positions : "OUT" ∈ POSITIONS := by decide

theorem mem_innings_iff (req : Request) (i : ℕ) :
    i ∈ innings req ↔ 1 ≤ i ∧ i ≤ req.game_innings := by
  unfold innings
  rw [List.mem_range'_1]
  omega

theorem length_innings (req : Request) : (innings req).length = req.game_innings := by
  unfold innings
  exact List.length_range' 1 1 req.game_innings

/-- In any feasible assignment, counting the occupied cells of one inning in
two ways shows the roster has at least 9 players and exactly
`roster_size - 9` of them are benched in that inning. -/
theorem feasible_inning_out_count (req : Request) (asg : Asg)
    (hf : feasibleAsg req asg) (i : ℕ) (hi : i ∈ innings req) :
    9 ≤ req.players.length ∧
      req.players.countP (fun p => asg p i "OUT") = req.players.length - 9 := by
  obtain ⟨h1, h2, _⟩ := hf
  have hsum : (req.players.map (fun p => POSITIONS.countP (fun pos => asg p i pos))).sum
      = req.players.length :=
    sum_map_ones _ _ (fun p hp => h1 p hp i hi)
  rw [countP_map_sum_comm req.players POSITIONS (fun p pos => asg p i pos)] at hsum
  rw [positions_split, List.map_append, List.sum_append] at hsum
  have hmain : (MAIN_POSITIONS.map
      (fun pos => req.players.countP (fun p => asg p i pos))).sum = MAIN_POSITIONS.length :=
    sum_map_ones _ _ (fun pos hpos => h2 i hi pos hpos)
  rw [hmain] at hsum
  simp only [List.map_cons, List.map_nil, List.sum_cons, List.sum_nil] at hsum
  have h9 : MAIN_POSITIONS.length = 9 := rfl
  rw [h9] at hsum
  omega

/-- Extraction from exact binary solver values returns exactly the unique
position the underlying assignment marks true. -/
theorem extractCell_exact (f : String → Bool) (vals : String → Option ℚ)
    (hv : ∀ pos, vals pos = some (if f pos then 1 else 0))
    (hc : POSITIONS.countP f = 1) :
    extractCell vals ∈ POSITIONS ∧ f (extractCell vals) = true ∧
      ∀ pos ∈ POSITIONS, f pos = true → pos = extractCell vals := by
  have hpred : (fun pos => passesThreshold (vals pos)) = f := by
    funext pos
    rw [hv pos]
    by_cases hf : f pos
    · simp [passesThreshold, hf, pyRound_one]
    · simp [passesThreshold, hf, pyRound_zero]
  obtain ⟨a, hfa, hamem, hpa, huniq⟩ := filter_singleton_spec POSITIONS f hc
  have hfind : POSITIONS.find? f = some a := find?_of_filter_singleton _ _ _ hfa
  unfold extractCell
  rw [hpred, hfind]
  exact ⟨hamem, hpa, fun pos hpos hfpos => huniq pos hpos hfpos⟩

theorem prefCoeff_nonneg (preferred restricted : List String) (pos : String) :
    0 ≤ prefCoeff preferred restricted pos := by
  unfold prefCoeff RESTRICTED_POSITION_PENALTY NOT_PREFERRED_PENALTY
  split_ifs <;> norm_num

theorem prefCoeff_le_ten (preferred restricted : List String) (pos : String)
    (h : pos ∉ restricted) : prefCoeff preferred restricted pos ≤ 10 := by
  unfold prefCoeff RESTRICTED_POSITION_PENALTY NOT_PREFERRED_PENALTY
  rw [if_neg h]
  split_ifs <;> norm_num

theorem rowPenalty_nonneg (preferred restricted : List String) (rowAsg : String → Bool) :
    0 ≤ rowPenalty preferred restricted rowAsg := by
  refine sum_map_nonneg_q _ _ ?_
  intro pos hpos
  by_cases h : rowAsg pos
  · simp only [h, if_true, mul_one]
    exact prefCoeff_nonneg preferred restricted pos
  · simp [h]

theorem rowPenalty_ge_cell (preferred restricted : List String) (rowAsg : String → Bool)
    (pos : String) (hpos : pos ∈ POSITIONS) (ha : rowAsg pos = true) :
    prefCoeff preferred restricted pos ≤ rowPenalty preferred restricted rowAsg := by
  have h := le_sum_of_mem_q POSITIONS
      (fun pos2 => prefCoeff preferred restricted pos2 * (if rowAsg pos2 then 1 else 0)) pos hpos
      (by
        intro x hx
        by_cases hb : rowAsg x
        · simp only [hb, if_true, mul_one]
          exact prefCoeff_nonneg preferred restricted x
        · simp [hb])
  simp only [ha, if_true, mul_one] at h
  unfold rowPenalty
  exact h

theorem prefPenaltyTotal_nonneg (req : Request) (asg : Asg) : 0 ≤ prefPenaltyTotal req asg :=
  sum_map_nonneg_q _ _ (fun p _ => sum_map_nonneg_q _ _ (fun i _ => rowPenalty_nonneg _ _ _))

theorem prefPenaltyTotal_ge_cell (req : Request) (asg : Asg) (p : String) (i : ℕ)
    (pos : String) (hp : p ∈ req.players) (hi : i ∈ innings req) (hpos : pos ∈ POSITIONS)
    (ha : asg p i pos = true) :
    prefCoeff (req.preferred p) (req.restricted p) pos ≤ prefPenaltyTotal req asg := by
  have h1 : prefCoeff (req.preferred p) (req.restricted p) pos
      ≤ rowPenalty (req.preferred p) (req.restricted p) (fun pos2 => asg p i pos2) :=
    rowPenalty_ge_cell _ _ _ pos hpos ha
  have h2 : rowPenalty (req.preferred p) (req.restricted p) (fun pos2 => asg p i pos2)
      ≤ ((innings req).map
          (fun i2 => rowPenalty (req.preferred p) (req.restricted p) (fun pos2 => asg p i2 pos2))).sum :=
    le_sum_of_mem_q _ _ i hi (fun x _ => rowPenalty_nonneg _ _ _)
  have h3 : ((innings req).map
        (fun i2 => rowPenalty (req.preferred p) (req.restricted p) (fun pos2 => asg p i2 pos2))).sum
      ≤ prefPenaltyTotal req asg :=
    le_sum_of_mem_q _ _ p hp (fun x _ => sum_map_nonneg_q _ _ (fun y _ => rowPenalty_nonneg _ _ _))
  linarith

theorem prefPenaltyTotal_le_ten (req : Request) (asg : Asg) (h1 : onePosOk req asg)
    (havoid : ∀ p ∈ req.players, ∀ i ∈ innings req, ∀ pos ∈ POSITIONS,
      asg p i pos = true → pos ∉ req.restricted p) :
    prefPenaltyTotal req asg ≤ 10 * (req.players.length : ℚ) * (req.game_innings : ℚ) := by
  unfold prefPenaltyTotal
  have hrow : ∀ p ∈ req.players,
      ((innings req).map
        (fun i => rowPenalty (req.preferred p) (req.restricted p) (fun pos => asg p i pos))).sum
      ≤ (fun _ => (10 : ℚ) * (req.game_innings : ℚ)) p := by
    intro p hp
    have hper : ∀ i ∈ innings req,
        (fun i2 => rowPenalty (req.preferred p) (req.restricted p) (fun pos => asg p i2 pos)) i
        ≤ (fun _ => (10 : ℚ)) i := by
      intro i hi
      obtain ⟨a, hfa, hamem, hpa, _⟩ :=
        filter_singleton_spec POSITIONS (fun pos => asg p i pos) (h1 p hp i hi)
      show rowPenalty (req.preferred p) (req.restricted p) (fun pos => asg p i pos) ≤ 10
      unfold rowPenalty
      rw [sum_ite_singleton POSITIONS _ _ a hfa]
      exact prefCoeff_le_ten _ _ a (havoid p hp i hi a hamem hpa)
    calc ((innings req).map
        (fun i => rowPenalty (req.preferred p) (req.restricted p) (fun pos => asg p i pos))).sum
        ≤ ((innings req).map (fun _ => (10 : ℚ))).sum := List.sum_le_sum hper
      _ = ((innings req).length : ℚ) * 10 := sum_map_const_q _ _
      _ = (req.game_innings : ℚ) * 10 := by rw [length_innings]
      _ = 10 * (req.game_innings : ℚ) := by ring
  calc (req.players.map (fun p =>
      ((innings req).map
        (fun i => rowPenalty (req.preferred p) (req.restricted p) (fun pos => asg p i pos))).sum)).sum
      ≤ (req.players.map (fun _ => (10 : ℚ) * (req.game_innings : ℚ))).sum := List.sum_le_sum hrow
    _ = (req.players.length : ℚ) * (10 * (req.game_innings : ℚ)) := sum_map_const_q _ _
    _ = 10 * (req.players.length : ℚ) * (req.game_innings : ℚ) := by ring

theorem devAbs_le_d (req : Request) (asg : Asg) (d : String → ℚ) (hd : devOk req asg d) :
    ∀ p ∈ req.players, devAbs req asg p ≤ d p := by
  intro p hp
  obtain ⟨_, h1, h2⟩ := hd p hp
  exact abs_sub_le_iff.mpr ⟨h1, h2⟩

theorem objVal_nonneg (req : Request) (asg : Asg) (d : String → ℚ) (hd : devOk req asg d) :
    0 ≤ objVal req asg d := by
  unfold objVal BENCH_DEVIATION_WEIGHT
  have h1 : 0 ≤ (req.players.map d).sum := sum_map_nonneg_q _ _ (fun p hp => (hd p hp).1)
  have h2 := prefPenaltyTotal_nonneg req asg
  linarith

theorem objVal_ge (req : Request) (asg : Asg) (d : String → ℚ) (hd : devOk req asg d) :
    (req.players.map (devAbs req asg)).sum + prefPenaltyTotal req asg ≤ objVal req asg d := by
  unfold objVal BENCH_DEVIATION_WEIGHT
  have h1 : (req.players.map (devAbs req asg)).sum ≤ (req.players.map d).sum :=
    List.sum_le_sum (fun p hp => devAbs_le_d req asg d hd p hp)
  linarith

theorem devOk_devAbs (req : Request) (asg : Asg) : devOk req asg (devAbs req asg) := by
  intro p _
  refine ⟨abs_nonneg _, le_abs_self _, ?_⟩
  have := neg_le_abs (finalBench req asg p - target_bench_innings req p)
  unfold devAbs
  linarith

theorem objVal_devAbs (req : Request) (asg : Asg) :
    objVal req asg (devAbs req asg)
      = (req.players.map (devAbs req asg)).sum + prefPenaltyTotal req asg := by
  unfold objVal BENCH_DEVIATION_WEIGHT
  ring

theorem benchInnings_le (req : Request) (asg : Asg) (p : String) :
    benchInnings req asg p ≤ req.game_innings := by
  unfold benchInnings
  rw [← length_innings req]
  exact List.countP_le_length _

theorem devAbs_compare (req : Request) (asgA2 asgB2 : Asg) (p : String) :
    devAbs req asgB2 p ≤ devAbs req asgA2 p + (req.game_innings : ℚ) := by
  unfold devAbs finalBench
  have hA2 : (benchInnings req asgA2 p : ℚ) ≤ (req.game_innings : ℚ) := by
    exact_mod_cast benchInnings_le req asgA2 p
  have hB2 : (benchInnings req asgB2 p : ℚ) ≤ (req.game_innings : ℚ) := by
    exact_mod_cast benchInnings_le req asgB2 p
  have hA0 : (0 : ℚ) ≤ (benchInnings req asgA2 p : ℚ) := by positivity
  have hB0 : (0 : ℚ) ≤ (benchInnings req asgB2 p : ℚ) := by positivity
  set x := req.actual_counts p "OUT" + (benchInnings req asgB2 p : ℚ) - target_bench_innings req p with hx
  set y := req.actual_counts p "OUT" + (benchInnings req asgA2 p : ℚ) - target_bench_innings req p with hy
  have hxy : |x - y| ≤ (req.game_innings : ℚ) := by
    rw [abs_le]
    constructor
    · rw [hx, hy]; linarith
    · rw [hx, hy]; linarith
  have hdecomp : x = y + (x - y) := by ring
  calc |x| = |y + (x - y)| := by rw [← hdecomp]
    _ ≤ |y| + |x - y| := abs_add _ _
    _ ≤ |y| + (req.game_innings : ℚ) := by linarith

theorem target_zero_of_zero_counts (req : Request)
    (hz : ∀ p pos, req.actual_counts p pos = 0) (hn : req.players.length ≤ 9) :
    target_bench_ratio req = 0 ∧ ∀ p, target_bench_innings req p = 0 := by
  have hout : total_actual_out req = 0 := by
    unfold total_actual_out
    rw [List.map_congr_left (fun p _ => hz p "OUT")]
    exact sum_map_zero_q _
  have hnew : total_new_out req = 0 := by
    unfold total_new_out
    have hmax : max 0 ((req.players.length : ℤ) - (MAIN_POSITIONS.length : ℤ)) = 0 := by
      have h9 : (MAIN_POSITIONS.length : ℤ) = 9 := rfl
      rw [h9]
      omega
    rw [hmax]
    simp
  have hratio : target_bench_ratio req = 0 := by
    unfold target_bench_ratio
    rw [hout, hnew]
    split_ifs <;> simp
  refine ⟨hratio, fun p => ?_⟩
  unfold target_bench_innings
  rw [hratio]
  ring

theorem devOk_zeroD (req : Request) (asg : Asg)
    (hz : ∀ p pos, req.actual_counts p pos = 0) (hn : req.players.length ≤ 9)
    (hb : ∀ p ∈ req.players, benchInnings req asg p = 0) :
    devOk req asg zeroD := by
  intro p hp
  have ht := (target_zero_of_zero_counts req hz hn).2 p
  have hf : finalBench req asg p = 0 := by
    unfold finalBench
    rw [hz p "OUT", hb p hp]
    simp
  refine ⟨le_refl 0, ?_, ?_⟩ <;> rw [hf, ht] <;> simp [zeroD]

theorem prefPenaltyTotal_eq_zero (req : Request) (asg : Asg)
    (h : ∀ p ∈ req.players, ∀ i ∈ innings req, ∀ pos ∈ POSITIONS,
      asg p i pos = true → prefCoeff (req.preferred p) (req.restricted p) pos = 0) :
    prefPenaltyTotal req asg = 0 := by
  unfold prefPenaltyTotal
  have hp : ∀ p ∈ req.players,
      (fun p2 => ((innings req).map
        (fun i => rowPenalty (req.preferred p2) (req.restricted p2) (fun pos => asg p2 i pos))).sum) p
      = (fun _ => (0 : ℚ)) p := by
    intro p hp2
    have hi : ∀ i ∈ innings req,
        (fun i2 => rowPenalty (req.preferred p) (req.restricted p) (fun pos => asg p i2 pos)) i
        = (fun _ => (0 : ℚ)) i := by
      intro i hi2
      show rowPenalty (req.preferred p) (req.restricted p) (fun pos => asg p i pos) = 0
      unfold rowPenalty
      have hterm : ∀ pos ∈ POSITIONS,
          (fun pos2 => prefCoeff (req.preferred p) (req.restricted p) pos2 *
            (if asg p i pos2 then 1 else 0)) pos = (fun _ => (0 : ℚ)) pos := by
        intro pos hpos
        by_cases ha : asg p i pos
        · simp only [ha, if_true, mul_one]
          exact h p hp2 i hi2 pos hpos ha
        · simp [ha]
      rw [List.map_congr_left hterm]
      exact sum_map_zero_q _
    show ((innings req).map
        (fun i => rowPenalty (req.preferred p) (req.restricted p) (fun pos => asg p i pos))).sum = 0
    rw [List.map_congr_left hi]
    exact sum_map_zero_q _
  rw [List.map_congr_left hp]
  exact sum_map_zero_q _

theorem objVal_zeroD_eq_zero (req : Request) (asg : Asg)
    (h : ∀ p ∈ req.players, ∀ i ∈ innings req, ∀ pos ∈ POSITIONS,
      asg p i pos = true → prefCoeff (req.preferred p) (req.restricted p) pos = 0) :
    objVal req asg zeroD = 0 := by
  unfold objVal BENCH_DEVIATION_WEIGHT
  rw [prefPenaltyTotal_eq_zero req asg h]
  have hz : (req.players.map zeroD).sum = 0 := sum_map_zero_q req.players
  rw [hz]
  ring

/-- C3: the fairness calculator computes
`target_bench_ratio = (historical bench + game_innings * max(0, roster - 9)) / (total historical + game_innings * roster)`
when that denominator is positive and 0 otherwise, and each player's target
equals the ratio times that player's total historical counts plus this
game's innings. -/
theorem c3_fairness_targets (req : Request) :
    target_bench_ratio req =
      (if 0 < (req.players.map (fun p => (POSITIONS.map (req.actual_counts p)).sum)).sum
            + (req.game_innings : ℚ) * (req.players.length : ℚ)
       then ((req.players.map (fun p => req.actual_counts p "OUT")).sum
              + (req.game_innings : ℚ) * ((max 0 ((req.players.length : ℤ) - 9) : ℤ) : ℚ))
            / ((req.players.map (fun p => (POSITIONS.map (req.actual_counts p)).sum)).sum
              + (req.game_innings : ℚ) * (req.players.length : ℚ))
       else 0)
    ∧ ∀ p : String,
        target_bench_innings req p
          = target_bench_ratio req *
              ((POSITIONS.map (req.actual_counts p)).sum + (req.game_innings : ℚ)) :=
  ⟨rfl, fun _ => rfl⟩

/-- C4 counterexample: with `restricted = ["OUT"]` the bench position is
charged the restricted preference penalty, so the bench is not free of all
preference penalties. -/
theorem c4_counterexample :
    prefCoeff [] ["OUT"] "OUT" = RESTRICTED_POSITION_PENALTY ∧
    RESTRICTED_POSITION_PENALTY ≠ 0 ∧
    rowPenalty [] ["OUT"] (fun pos => pos == "OUT") = RESTRICTED_POSITION_PENALTY := by
  refine ⟨by decide, by norm_num [RESTRICTED_POSITION_PENALTY], ?_⟩
  unfold rowPenalty
  rw [sum_ite_singleton POSITIONS _ _ "OUT" (by decide)]
  decide

/-- C4 amended: a position in the restricted set (the bench included) is
charged the restricted penalty; a non-bench position neither restricted nor
preferred is charged the non-preferred penalty; a non-restricted position
that is the bench or preferred is charged nothing; the bench never incurs
the non-preferred charge, and the two charges are mutually exclusive with
restricted precedence. -/
theorem c4_amended (preferred restricted : List String) (pos : String) :
    (pos ∈ restricted → prefCoeff preferred restricted pos = RESTRICTED_POSITION_PENALTY) ∧
    (pos ∉ restricted → pos ≠ "OUT" → pos ∉ preferred →
      prefCoeff preferred restricted pos = NOT_PREFERRED_PENALTY) ∧
    (pos ∉ restricted → (pos = "OUT" ∨ pos ∈ preferred) →
      prefCoeff preferred restricted pos = 0) ∧
    (pos = "OUT" → pos ∉ restricted → prefCoeff preferred restricted pos ≠ NOT_PREFERRED_PENALTY) ∧
    ¬(prefCoeff preferred restricted pos = RESTRICTED_POSITION_PENALTY ∧
      prefCoeff preferred restricted pos = NOT_PREFERRED_PENALTY) := by
  unfold prefCoeff
  refine ⟨?_, ?_, ?_, ?_, ?_⟩
  · intro h
    rw [if_pos h]
  · intro h1 h2 h3
    rw [if_neg h1, if_pos ⟨h2, h3⟩]
  · intro h1 h2
    have hn : ¬(pos ≠ "OUT" ∧ pos ∉ preferred) := by
      rcases h2 with h2 | h2
      · intro hc
        exact hc.1 h2
      · intro hc
        exact hc.2 h2
    rw [if_neg h1, if_neg hn]
  · intro h1 h2
    have hn : ¬(pos ≠ "OUT" ∧ pos ∉ preferred) := fun hc => hc.1 h1
    rw [if_neg h2, if_neg hn]
    norm_num [NOT_PREFERRED_PENALTY]
  · rintro ⟨ha, hb⟩
    rw [ha] at hb
    norm_num [RESTRICTED_POSITION_PENALTY, NOT_PREFERRED_PENALTY] at hb

/-- C4 amended witness at concrete preference sets. -/
theorem c4_amended_witness :
    ("C" ∈ (["C"] : List String) ∧ prefCoeff ["CF"] ["C"] "C" = RESTRICTED_POSITION_PENALTY) ∧
    ("LF" ∉ (["C"] : List String) ∧ prefCoeff ["CF"] ["C"] "LF" = NOT_PREFERRED_PENALTY) :=
  ⟨⟨by decide, (c4_amended ["CF"] ["C"] "C").1 (by decide)⟩,
   ⟨by decide, (c4_amended ["CF"] ["C"] "LF").2.1 (by decide) (by decide) (by decide)⟩⟩

/-- C6: an infeasible solve is answered with the infeasibility client error
(HTTP 400) and no lineup; a missing variable value (timeout with no
incumbent) is answered with the distinct timeout client error whose text
names the 55-second budget; neither path returns a lineup. -/
theorem c6_status_error_routing (req : Request) (status : LpStat) (vals : Vals) :
    (status = LpStat.infeasible →
      processResults req status vals = OptResult.clientError infeasibleMsg ∧
      httpStatusOf (processResults req status vals) = 400 ∧
      ∀ t, processResults req status vals ≠ OptResult.lineup t) ∧
    (status ≠ LpStat.infeasible → hasUndefinedVal req vals = true →
      processResults req status vals = OptResult.clientError timeoutMsg ∧
      httpStatusOf (processResults req status vals) = 400 ∧
      ∀ t, processResults req status vals ≠ OptResult.lineup t) ∧
    infeasibleMsg ≠ timeoutMsg ∧
    timeoutMsg = "Optimization failed: Solver timed out (" ++ toString SOLVER_TIME_LIMIT
      ++ "s) before finding a feasible solution." := by
  refine ⟨?_, ?_, ?_, ?_⟩
  · intro h
    subst h
    refine ⟨rfl, rfl, fun t => by simp [processResults]⟩
  · intro hne hundef
    unfold processResults
    rw [if_neg hne, if_pos hundef]
    exact ⟨rfl, rfl, fun t => by simp⟩
  · decide
  · decide

/-- C6 witness: a concrete infeasible status and concrete all-None values. -/
theorem c6_witness :
    processResults reqW1 LpStat.infeasible (valsOf asgW1) = OptResult.clientError infeasibleMsg ∧
    processResults reqW1 LpStat.optimal valsNone = OptResult.clientError timeoutMsg :=
  ⟨((c6_status_error_routing reqW1 LpStat.infeasible (valsOf asgW1)).1 rfl).1,
   ((c6_status_error_routing reqW1 LpStat.optimal valsNone).2.1 (by decide) (by decide)).1⟩

/-- C9 counterexample: a JSON `null` count value (a non-numeric value) makes
normalization raise `TypeError`, which the handler answers with HTTP 500,
not with a 400 validation error. -/
theorem c9_counterexample :
    normalizeCounts ["P1"] acBad = Except.error PyErr.typeError ∧
    httpStatusOfPyErr PyErr.typeError = 500 ∧ httpStatusOfPyErr PyErr.typeError ≠ 400 :=
  ⟨rfl, rfl, by decide⟩

/-- C9 amended: a missing count entry (or a missing player row) defaults to
0; a non-numeric string value raises `ValueError`, answered with HTTP 400;
a `null` value raises `TypeError`, answered with HTTP 500. -/
theorem c9_amended (acInput : List (String × JVal)) (p pos : String) :
    (jlookup (countsDictOf acInput p) pos = none → normCount acInput p pos = Except.ok 0) ∧
    (jlookup acInput p = none → normCount acInput p pos = Except.ok 0) ∧
    (∀ s, jlookup (countsDictOf acInput p) pos = some (JVal.str s) → parseFloat? s = none →
      normCount acInput p pos = Except.error PyErr.valueError ∧
      httpStatusOfPyErr PyErr.valueError = 400) ∧
    (jlookup (countsDictOf acInput p) pos = some JVal.null →
      normCount acInput p pos = Except.error PyErr.typeError ∧
      httpStatusOfPyErr PyErr.typeError = 500) := by
  refine ⟨?_, ?_, ?_, ?_⟩
  · intro h
    unfold normCount
    rw [h]
  · intro h
    unfold normCount countsDictOf
    rw [h]
    rfl
  · intro s h hp
    unfold normCount
    rw [h]
    constructor
    · show pyFloat (JVal.str s) = Except.error PyErr.valueError
      rw [show pyFloat (JVal.str s)
            = (match parseFloat? s with
               | some q => Except.ok q
               | none => Except.error PyErr.valueError) from rfl, hp]
    · rfl
  · intro h
    unfold normCount
    rw [h]
    exact ⟨rfl, rfl⟩

/-- C9 amended witness at the concrete bad input. -/
theorem c9_amended_witness :
    normCount acBad "P1" "CF" = Except.error PyErr.typeError ∧
    normCount acBad "P1" "LF" = Except.ok 0 ∧
    normCount acBad "P2" "CF" = Except.ok 0 :=
  ⟨((c9_amended acBad "P1" "CF").2.2.2 rfl).1,
   (c9_amended acBad "P1" "LF").1 rfl,
   (c9_amended acBad "P2" "CF").2.1 rfl⟩

theorem addedFixed_mem (req : Request) (t : String × ℕ × String) (ht : t ∈ addedFixed req) :
    t.1 ∈ req.players ∧ t.2.1 ∈ innings req ∧ t.2.2 ∈ POSITIONS := by
  unfold addedFixed at ht
  rw [List.mem_flatMap] at ht
  obtain ⟨pa, _, hmem⟩ := ht
  by_cases hp : pa.1 ∈ req.players
  · rw [if_pos hp] at hmem
    rw [List.mem_filterMap] at hmem
    obtain ⟨e, _, heq⟩ := hmem
    cases hpi : parseInt? e.1 with
    | none => rw [hpi] at heq; simp at heq
    | some i =>
        rw [hpi] at heq
        have heq2 : (if 1 ≤ i ∧ i ≤ (req.game_innings : ℤ) ∧ e.2 ∈ POSITIONS then
            some (pa.1, i.toNat, e.2) else none) = some t := heq
        by_cases hcond : 1 ≤ i ∧ i ≤ (req.game_innings : ℤ) ∧ e.2 ∈ POSITIONS
        · rw [if_pos hcond] at heq2
          obtain ⟨h1, h2, h3⟩ := hcond
          cases heq2
          refine ⟨hp, ?_, h3⟩
          rw [mem_innings_iff]
          show 1 ≤ i.toNat ∧ i.toNat ≤ req.game_innings
          omega
        · rw [if_neg hcond] at heq2
          simp at heq2
  · rw [if_neg hp] at hmem
    simp at hmem

/-- C5 counterexample: a fixed assignment for a roster player with a known
position but an out-of-range inning (inning 7 of a 6-inning game) is skipped
silently, not with a warning, and adds no constraint. -/
theorem c5_counterexample :
    fixedEntryOutcome players9 6 "P1" "7" "CF" = FixedOutcome.skippedSilent ∧
    FixedOutcome.skippedSilent ≠ FixedOutcome.skippedWarned ∧
    FixedOutcome.skippedSilent ≠ FixedOutcome.added ∧
    addedFixed reqC5bad = [] :=
  ⟨by decide, by decide, by decide, by decide⟩

/-- C5 amended: a fixed-assignment entry becomes a forcing constraint (and is
honored by every feasible solution, also through extraction from exact solver
values) exactly when it names a roster player, an inning text parsing into
`1..game_innings`, and a known position; every other entry is skipped - some
with a warning and some silently - and never fails the request. -/
theorem c5_amended (req : Request) (p s pos : String) :
    (fixedEntryOutcome req.players req.game_innings p s pos = FixedOutcome.added ↔
      p ∈ req.players ∧ (∃ i : ℤ, parseInt? s = some i ∧ 1 ≤ i ∧ i ≤ (req.game_innings : ℤ))
        ∧ pos ∈ POSITIONS) ∧
    (fixedEntryOutcome req.players req.game_innings p s pos ≠ FixedOutcome.added →
      fixedEntryOutcome req.players req.game_innings p s pos = FixedOutcome.skippedWarned ∨
      fixedEntryOutcome req.players req.game_innings p s pos = FixedOutcome.skippedSilent) ∧
    (∀ asg : Asg, feasibleAsg req asg → ∀ t ∈ addedFixed req, asg t.1 t.2.1 t.2.2 = true) ∧
    (∀ asg : Asg, ∀ vals : Vals, feasibleAsg req asg →
      (∀ p2 i pos2, vals p2 i pos2 = some (if asg p2 i pos2 then (1 : ℚ) else 0)) →
      ∀ t ∈ addedFixed req, extractCell (fun pos2 => vals t.1 t.2.1 pos2) = t.2.2) := by
  refine ⟨?_, ?_, ?_, ?_⟩
  · by_cases hp : p ∈ req.players
    · cases hpi : parseInt? s with
      | none =>
          have hred : fixedEntryOutcome req.players req.game_innings p s pos
              = FixedOutcome.skippedWarned := by
            unfold fixedEntryOutcome
            rw [if_pos hp, hpi]
          rw [hred]
          constructor
          · intro h
            exact FixedOutcome.noConfusion h
          · rintro ⟨-, ⟨i, hi, -⟩, -⟩
            exact Option.noConfusion hi
      | some i =>
          have hred : fixedEntryOutcome req.players req.game_innings p s pos
              = (if 1 ≤ i ∧ i ≤ (req.game_innings : ℤ) ∧ pos ∈ POSITIONS then
                   FixedOutcome.added
                 else if pos ∉ POSITIONS then FixedOutcome.skippedWarned
                 else FixedOutcome.skippedSilent) := by
            unfold fixedEntryOutcome
            rw [if_pos hp, hpi]
          rw [hred]
          by_cases hcond : 1 ≤ i ∧ i ≤ (req.game_innings : ℤ) ∧ pos ∈ POSITIONS
          · rw [if_pos hcond]
            exact ⟨fun _ => ⟨hp, ⟨i, rfl, hcond.1, hcond.2.1⟩, hcond.2.2⟩, fun _ => rfl⟩
          · rw [if_neg hcond]
            constructor
            · intro h
              split_ifs at h <;> exact FixedOutcome.noConfusion h
            · rintro ⟨-, ⟨i2, hi2, hb1, hb2⟩, h3⟩
              have hii : i = i2 := Option.some_injective _ hi2
              subst hii
              exact absurd ⟨hb1, hb2, h3⟩ hcond
    · have hred : fixedEntryOutcome req.players req.game_innings p s pos
          = FixedOutcome.skippedSilent := by
        unfold fixedEntryOutcome
        rw [if_neg hp]
      rw [hred]
      constructor
      · intro h
        exact FixedOutcome.noConfusion h
      · rintro ⟨hp2, -, -⟩
        exact absurd hp2 hp
  · intro hne
    cases hout : fixedEntryOutcome req.players req.game_innings p s pos with
    | added => exact absurd hout hne
    | skippedWarned => exact Or.inl rfl
    | skippedSilent => exact Or.inr rfl
  · intro asg hf t ht
    exact hf.2.2 t ht
  · intro asg vals hf hv t ht
    obtain ⟨hp, hi, hpos⟩ := addedFixed_mem req t ht
    have h1 : POSITIONS.countP (fun pos2 => asg t.1 t.2.1 pos2) = 1 := hf.1 t.1 hp t.2.1 hi
    have hx := extractCell_exact (fun pos2 => asg t.1 t.2.1 pos2)
        (fun pos2 => vals t.1 t.2.1 pos2) (fun pos2 => hv t.1 t.2.1 pos2) h1
    have htrue : asg t.1 t.2.1 t.2.2 = true := hf.2.2 t ht
    exact (hx.2.2 t.2.2 hpos htrue).symm

/-- C5 amended witness: a concrete valid fixed assignment is classified as
added and honored through extraction. -/
theorem c5_amended_witness :
    fixedEntryOutcome reqW5.players reqW5.game_innings "P1" "1" "CF" = FixedOutcome.added ∧
    extractCell (fun pos => valsOf asgW1 "P1" 1 pos) = "CF" :=
  ⟨(c5_amended reqW5 "P1" "1" "CF").1.mpr
      ⟨by decide, ⟨1, by decide, by decide, by decide⟩, by decide⟩,
   (c5_amended reqW5 "P1" "1" "CF").2.2.2 asgW1 (valsOf asgW1) (by decide)
      (fun _ _ _ => rfl) ("P1", 1, "CF") (by decide)⟩

theorem passesThreshold_iff (vals : String → Option ℚ) (pos : String)
    (hb : ∀ v, vals pos = some v → 0 ≤ v ∧ v ≤ 1) :
    passesThreshold (vals pos) = true ↔ ∃ v, vals pos = some v ∧ 1 / 2 < v := by
  cases hv : vals pos with
  | none => simp [passesThreshold]
  | some q =>
      obtain ⟨h0, h1⟩ := hb q hv
      simp only [passesThreshold]
      constructor
      · intro h
        rw [beq_iff_eq] at h
        exact ⟨q, rfl, (pyRound_eq_one_iff q h0 h1).mp h⟩
      · rintro ⟨v, hv2, hgt⟩
        have hvq : v = q := (Option.some_injective _ hv2).symm
        rw [beq_iff_eq]
        exact (pyRound_eq_one_iff q h0 h1).mpr (hvq ▸ hgt)

/-- C7: under the solver contract (every defined value lies in [0,1]) the
extractor returns a position whose value is strictly above the 1/2 threshold
whenever one exists (exact equality to 1 is not required), and emits the
sentinel `"ERR"` for the cell when no position passes. -/
theorem c7_threshold_extraction (vals : String → Option ℚ)
    (hb : ∀ pos v, vals pos = some v → 0 ≤ v ∧ v ≤ 1) :
    ((∀ pos ∈ POSITIONS, ¬ ∃ v, vals pos = some v ∧ 1 / 2 < v) → extractCell vals = "ERR") ∧
    (∀ pos ∈ POSITIONS, (∃ v, vals pos = some v ∧ 1 / 2 < v) →
      extractCell vals ∈ POSITIONS ∧ ∃ v, vals (extractCell vals) = some v ∧ 1 / 2 < v) := by
  constructor
  · intro h
    have hnone : POSITIONS.find? (fun pos => passesThreshold (vals pos)) = none := by
      rw [List.find?_eq_none]
      intro pos hpos hpass
      exact h pos hpos ((passesThreshold_iff vals pos (fun v hv => hb pos v hv)).mp hpass)
    unfold extractCell
    rw [hnone]
    rfl
  · intro pos hpos hex
    cases hfind : POSITIONS.find? (fun pos2 => passesThreshold (vals pos2)) with
    | none =>
        rw [List.find?_eq_none] at hfind
        exact absurd ((passesThreshold_iff vals pos (fun v hv => hb pos v hv)).mpr hex)
          (hfind pos hpos)
    | some a =>
        have ha := List.find?_some hfind
        have hamem := List.mem_of_find?_eq_some hfind
        have hcell : extractCell vals = a := by
          unfold extractCell
          rw [hfind]
          rfl
        rw [hcell]
        exact ⟨hamem, (passesThreshold_iff vals a (fun v hv => hb a v hv)).mp ha⟩

/-- C7 witness at a concrete in-range value row. -/
theorem c7_witness :
    extractCell valsW7 ∈ POSITIONS ∧ ∃ v, valsW7 (extractCell valsW7) = some v ∧ 1 / 2 < v :=
  (c7_threshold_extraction valsW7 (by
      intro pos v h
      unfold valsW7 at h
      split_ifs at h <;> (injection h with h2; rw [← h2]; norm_num))).2
    "CF" (by decide) ⟨1, by decide, by norm_num⟩

/-- C10: a nonempty roster smaller than the nine main positions admits no
feasible assignment at all, so the solver reports infeasible and the endpoint
answers with the infeasibility client error (HTTP 400), never a lineup. -/
theorem c10_small_roster_infeasible (req : Request) (hne : req.players ≠ [])
    (hlt : req.players.length < 9) (hg : 0 < req.game_innings) :
    (¬ ∃ asg : Asg, feasibleAsg req asg) ∧
    (∀ vals : Vals,
      processResults req LpStat.infeasible vals = OptResult.clientError infeasibleMsg ∧
      httpStatusOf (processResults req LpStat.infeasible vals) = 400 ∧
      ∀ t, processResults req LpStat.infeasible vals ≠ OptResult.lineup t) := by
  constructor
  · rintro ⟨asg, hf⟩
    have h1 : (1 : ℕ) ∈ innings req := by
      rw [mem_innings_iff]
      omega
    have h9 := (feasible_inning_out_count req asg hf 1 h1).1
    omega
  · intro vals
    exact ⟨rfl, rfl, fun t => by simp [processResults]⟩

/-- C10 witness: the concrete three-player roster. -/
theorem c10_witness :
    (¬ ∃ asg : Asg, feasibleAsg req3 asg) ∧
    processResults req3 LpStat.infeasible valsNone = OptResult.clientError infeasibleMsg :=
  ⟨(c10_small_roster_infeasible req3 (by decide) (by decide) (by decide)).1,
   ((c10_small_roster_infeasible req3 (by decide) (by decide) (by decide)).2 valsNone).1⟩

/-- C1: extracting from exact binary values of any feasible solution, every
roster player gets exactly one (real) position per inning, every main
position has exactly one occupant per inning, and every inning benches
exactly `max(0, roster_size - 9)` players. -/
theorem c1_returned_assignment_invariants (req : Request) (asg : Asg) (vals : Vals)
    (hg : 0 < req.game_innings) (hf : feasibleAsg req asg)
    (hv : ∀ p i pos, vals p i pos = some (if asg p i pos then (1 : ℚ) else 0)) :
    9 ≤ req.players.length ∧
    (∀ p ∈ req.players, ∀ i ∈ innings req,
      extractCell (fun pos => vals p i pos) ∈ POSITIONS ∧
      asg p i (extractCell (fun pos => vals p i pos)) = true ∧
      POSITIONS.countP (fun pos => asg p i pos) = 1) ∧
    (∀ i ∈ innings req, ∀ pos ∈ MAIN_POSITIONS,
      req.players.countP (fun p => extractCell (fun pos2 => vals p i pos2) == pos) = 1) ∧
    (∀ i ∈ innings req,
      (req.players.countP (fun p => extractCell (fun pos2 => vals p i pos2) == "OUT") : ℤ)
        = max 0 ((req.players.length : ℤ) - 9)) := by
  have h1mem : (1 : ℕ) ∈ innings req := by
    rw [mem_innings_iff]
    omega
  have h9 := (feasible_inning_out_count req asg hf 1 h1mem).1
  have hcell : ∀ p ∈ req.players, ∀ i ∈ innings req,
      extractCell (fun pos => vals p i pos) ∈ POSITIONS ∧
      asg p i (extractCell (fun pos => vals p i pos)) = true ∧
      (∀ pos ∈ POSITIONS, asg p i pos = true → pos = extractCell (fun pos2 => vals p i pos2)) ∧
      POSITIONS.countP (fun pos => asg p i pos) = 1 := by
    intro p hp i hi
    have hc := hf.1 p hp i hi
    have hx := extractCell_exact (fun pos => asg p i pos) (fun pos => vals p i pos)
      (fun pos => hv p i pos) hc
    exact ⟨hx.1, hx.2.1, hx.2.2, hc⟩
  have hcount : ∀ i ∈ innings req, ∀ pos ∈ POSITIONS,
      req.players.countP (fun p => extractCell (fun pos2 => vals p i pos2) == pos)
        = req.players.countP (fun p => asg p i pos) := by
    intro i hi pos hpos
    refine List.countP_congr ?_
    intro p hp
    obtain ⟨hmem, htrue, huniq, hone⟩ := hcell p hp i hi
    constructor
    · intro hbeq
      have hceq : extractCell (fun pos2 => vals p i pos2) = pos := by
        rwa [beq_iff_eq] at hbeq
      rw [← hceq]
      exact htrue
    · intro ha
      rw [beq_iff_eq]
      exact (huniq pos hpos ha).symm
  refine ⟨h9,
    fun p hp i hi => ⟨(hcell p hp i hi).1, (hcell p hp i hi).2.1, (hcell p hp i hi).2.2.2⟩,
    ?_, ?_⟩
  · intro i hi pos hpos
    rw [hcount i hi pos (main_mem_positions pos hpos)]
    exact hf.2.1 i hi pos hpos
  · intro i hi
    rw [hcount i hi "OUT" out_mem_positions]
    have hout := (feasible_inning_out_count req asg hf i hi).2
    have h9b := (feasible_inning_out_count req asg hf i hi).1
    rw [hout, max_eq_right (by omega : (0 : ℤ) ≤ (req.players.length : ℤ) - 9)]
    omega

/-- C1 witness at the concrete nine-player request. -/
theorem c1_witness :
    0 < reqW1.game_innings ∧ feasibleAsg reqW1 asgW1 ∧ 9 ≤ reqW1.players.length :=
  ⟨by decide, by decide,
   (c1_returned_assignment_invariants reqW1 asgW1 (valsOf asgW1) (by decide) (by decide)
      (fun _ _ _ => rfl)).1⟩

/-- C2 counterexample: at a concrete ten-player, one-inning request, no
constraint of the built model is a bench-count equality (an equality over
only bench variables), so the explicit bench-count constraint the claim
describes is never added. -/
theorem c2_counterexample : hasBenchSumEq reqC2 = false := by decide

/-- C2 amended: the model builder adds the one-position-per-player and
one-player-per-main-position equalities (together with fixed-assignment
equalities and the two deviation inequalities per player), but it adds no
explicit per-inning bench-count equality; the bench count per inning is only
implied by the other constraints. -/
theorem c2_amended (req : Request) (hne : req.players ≠ [])
    (hfx : ∀ t ∈ addedFixed req, t.2.2 ≠ "OUT") :
    (∀ p ∈ req.players, ∀ i ∈ innings req,
      (⟨POSITIONS.map (fun pos => ((1 : ℚ), MVar.x p i pos)), LRel.eq, 1⟩ : LinCon)
        ∈ buildConstraints req) ∧
    (∀ i ∈ innings req, ∀ pos ∈ MAIN_POSITIONS,
      (⟨req.players.map (fun p => ((1 : ℚ), MVar.x p i pos)), LRel.eq, 1⟩ : LinCon)
        ∈ buildConstraints req) ∧
    hasBenchSumEq req = false := by
  refine ⟨?_, ?_, ?_⟩
  · intro p hp i hi
    unfold buildConstraints
    refine List.mem_append.mpr (Or.inl (List.mem_append.mpr (Or.inl
      (List.mem_append.mpr (Or.inl ?_)))))
    rw [List.mem_flatMap]
    exact ⟨p, hp, List.mem_map.mpr ⟨i, hi, rfl⟩⟩
  · intro i hi pos hpos
    unfold buildConstraints
    refine List.mem_append.mpr (Or.inl (List.mem_append.mpr (Or.inl
      (List.mem_append.mpr (Or.inr ?_)))))
    rw [List.mem_flatMap]
    exact ⟨i, hi, List.mem_map.mpr ⟨pos, hpos, rfl⟩⟩
  · unfold hasBenchSumEq
    rw [List.any_eq_false]
    intro c hc
    unfold buildConstraints at hc
    rw [List.mem_append] at hc
    rcases hc with hc | hc
    · rw [List.mem_append] at hc
      rcases hc with hc | hc
      · rw [List.mem_append] at hc
        rcases hc with hc | hc
        · rw [List.mem_flatMap] at hc
          obtain ⟨p, _, hc⟩ := hc
          rw [List.mem_map] at hc
          obtain ⟨i, _, rfl⟩ := hc
          intro hbad
          simp [isBenchSumEqB, POSITIONS, MVar.isOutX] at hbad
        · rw [List.mem_flatMap] at hc
          obtain ⟨i, _, hc⟩ := hc
          rw [List.mem_map] at hc
          obtain ⟨pos, hpos, rfl⟩ := hc
          intro hbad
          obtain ⟨q, rest, hq⟩ := List.exists_cons_of_ne_nil hne
          rw [show isBenchSumEqB ⟨req.players.map (fun p => ((1 : ℚ), MVar.x p i pos)), LRel.eq, 1⟩
              = (!(req.players.map (fun p => ((1 : ℚ), MVar.x p i pos))).isEmpty
                  && (req.players.map (fun p => ((1 : ℚ), MVar.x p i pos))).all
                      (fun t => t.2.isOutX)) from rfl, hq] at hbad
          simp only [List.map_cons, List.all_cons, Bool.and_eq_true] at hbad
          have hbeq : (pos == "OUT") = true := hbad.2.1
          rw [beq_iff_eq] at hbeq
          exact main_ne_out pos hpos hbeq
      · rw [List.mem_map] at hc
        obtain ⟨t, ht, rfl⟩ := hc
        intro hbad
        simp only [isBenchSumEqB, List.all_cons, List.all_nil, Bool.and_eq_true,
          List.isEmpty_cons, Bool.not_false, MVar.isOutX] at hbad
        have hbeq : (t.2.2 == "OUT") = true := by
          rcases hbad with ⟨-, hbeq, -⟩
          exact hbeq
        rw [beq_iff_eq] at hbeq
        exact hfx t ht hbeq
    · rw [List.mem_flatMap] at hc
      obtain ⟨p, _, hc⟩ := hc
      rcases List.mem_cons.mp hc with rfl | hc2
      · intro hbad
        simp [isBenchSumEqB] at hbad
      · rcases List.mem_cons.mp hc2 with rfl | hc3
        · intro hbad
          simp [isBenchSumEqB] at hbad
        · simp at hc3

/-- C2 amended witness: at the concrete ten-player request, the
one-position-per-player constraint for `P1` in inning 1 is present. -/
theorem c2_amended_witness :
    (⟨POSITIONS.map (fun pos => ((1 : ℚ), MVar.x "P1" 1 pos)), LRel.eq, 1⟩ : LinCon)
      ∈ buildConstraints reqC2 :=
  (c2_amended reqC2 (by decide) (by decide)).1 "P1" (by decide) 1 (by decide)

theorem objVal_asgA : objVal reqC8 asgA zeroD = 1000 := by
  have hinn : innings reqC8 = [1] := rfl
  have hone : ∀ p a : String, POSITIONS.filter (fun pos => asgA p 1 pos) = [a] →
      ((innings reqC8).map (fun i => rowPenalty (reqC8.preferred p) (reqC8.restricted p)
        (fun pos => asgA p i pos))).sum = prefCoeff (reqC8.preferred p) (reqC8.restricted p) a := by
    intro p a hfil
    rw [hinn]
    simp only [List.map_cons, List.map_nil, List.sum_cons, List.sum_nil, add_zero]
    unfold rowPenalty
    exact sum_ite_singleton POSITIONS _ _ a hfil
  unfold objVal prefPenaltyTotal BENCH_DEVIATION_WEIGHT
  rw [show reqC8.players = ["P1", "P2", "P3", "P4", "P5", "P6", "P7", "P8", "P9"] from rfl]
  simp only [List.map_cons, List.map_nil, List.sum_cons, List.sum_nil]
  rw [hone "P1" "C" (by decide), hone "P2" "CF" (by decide), hone "P3" "LF" (by decide),
      hone "P4" "RF" (by decide), hone "P5" "SS" (by decide), hone "P6" "1B" (by decide),
      hone "P7" "2B" (by decide), hone "P8" "3B" (by decide), hone "P9" "P" (by decide)]
  rw [show prefCoeff (reqC8.preferred "P1") (reqC8.restricted "P1") "C" = 1000 from by decide,
      show prefCoeff (reqC8.preferred "P2") (reqC8.restricted "P2") "CF" = 0 from by decide,
      show prefCoeff (reqC8.preferred "P3") (reqC8.restricted "P3") "LF" = 0 from by decide,
      show prefCoeff (reqC8.preferred "P4") (reqC8.restricted "P4") "RF" = 0 from by decide,
      show prefCoeff (reqC8.preferred "P5") (reqC8.restricted "P5") "SS" = 0 from by decide,
      show prefCoeff (reqC8.preferred "P6") (reqC8.restricted "P6") "1B" = 0 from by decide,
      show prefCoeff (reqC8.preferred "P7") (reqC8.restricted "P7") "2B" = 0 from by decide,
      show prefCoeff (reqC8.preferred "P8") (reqC8.restricted "P8") "3B" = 0 from by decide,
      show prefCoeff (reqC8.preferred "P9") (reqC8.restricted "P9") "P" = 0 from by decide]
  show (1 : ℚ) * (zeroD "P1" + (zeroD "P2" + (zeroD "P3" + (zeroD "P4" + (zeroD "P5"
      + (zeroD "P6" + (zeroD "P7" + (zeroD "P8" + (zeroD "P9" + 0)))))))))
      + (1000 + (0 + (0 + (0 + (0 + (0 + (0 + (0 + (0 + 0))))))))) = 1000
  unfold zeroD
  norm_num

theorem reqC8_obj_lower (asg2 : Asg) (d2 : String → ℚ)
    (hfe : milpFeasible reqC8 asg2 d2) : 1000 ≤ objVal reqC8 asg2 d2 := by
  obtain ⟨hf, hd⟩ := hfe
  have h1mem : (1 : ℕ) ∈ innings reqC8 := by decide
  have hout := (feasible_inning_out_count reqC8 asg2 hf 1 h1mem).2
  have hout0 : reqC8.players.countP (fun p => asg2 p 1 "OUT") = 0 := by
    rw [hout]
    rfl
  have hnoOut : ∀ p ∈ reqC8.players, asg2 p 1 "OUT" = false := by
    intro p hp
    have hno := List.countP_eq_zero.mp hout0 p hp
    simpa using hno
  have hP1 : "P1" ∈ reqC8.players := by decide
  have hP2 : "P2" ∈ reqC8.players := by decide
  obtain ⟨a1, hfa1, hm1, hp1, -⟩ :=
    filter_singleton_spec POSITIONS (fun pos => asg2 "P1" 1 pos) (hf.1 "P1" hP1 1 h1mem)
  obtain ⟨a2, hfa2, hm2, hp2, -⟩ :=
    filter_singleton_spec POSITIONS (fun pos => asg2 "P2" 1 pos) (hf.1 "P2" hP2 1 h1mem)
  have ha1out : a1 ≠ "OUT" := by
    intro h
    rw [h] at hp1
    rw [hnoOut "P1" hP1] at hp1
    exact Bool.noConfusion hp1
  have ha2out : a2 ≠ "OUT" := by
    intro h
    rw [h] at hp2
    rw [hnoOut "P2" hP2] at hp2
    exact Bool.noConfusion hp2
  have hcf : a1 ≠ "CF" ∨ a2 ≠ "CF" := by
    by_contra hcc
    push_neg at hcc
    obtain ⟨h1, h2⟩ := hcc
    have hcount := hf.2.1 1 h1mem "CF" (by decide)
    have h2le := two_le_countP reqC8.players (fun p => asg2 p 1 "CF") "P1" "P2" hP1 hP2
      (by decide) (h1 ▸ hp1) (h2 ▸ hp2)
    omega
  have hmain : ∀ a : String, a ∈ POSITIONS → a ≠ "OUT" → a ≠ "CF" → a ∈ restrNoCF := by decide
  have key : ∃ p ∈ reqC8.players, ∃ a ∈ POSITIONS, asg2 p 1 a = true ∧
      prefCoeff (reqC8.preferred p) (reqC8.restricted p) a = 1000 := by
    rcases hcf with h | h
    · refine ⟨"P1", hP1, a1, hm1, hp1, ?_⟩
      have hr : a1 ∈ reqC8.restricted "P1" := by
        rw [show reqC8.restricted "P1" = restrNoCF from rfl]
        exact hmain a1 hm1 ha1out h
      unfold prefCoeff
      rw [if_pos hr]
      rfl
    · refine ⟨"P2", hP2, a2, hm2, hp2, ?_⟩
      have hr : a2 ∈ reqC8.restricted "P2" := by
        rw [show reqC8.restricted "P2" = restrNoCF from rfl]
        exact hmain a2 hm2 ha2out h
      unfold prefCoeff
      rw [if_pos hr]
      rfl
  obtain ⟨p, hp, a, ham, hat, hco⟩ := key
  have hpen : (1000 : ℚ) ≤ prefPenaltyTotal reqC8 asg2 := by
    have hcell := prefPenaltyTotal_ge_cell reqC8 asg2 p 1 a hp h1mem ham hat
    rwa [hco] at hcell
  have hobj := objVal_ge reqC8 asg2 d2 hd
  have hdev : 0 ≤ (reqC8.players.map (devAbs reqC8 asg2)).sum :=
    sum_map_nonneg_q _ _ (fun x _ => abs_nonneg _)
  linarith

/-- C8 counterexample: at the nine-player request `reqC8` the placement
`asgA` is optimal (objective 1000, the minimum) yet assigns player `P1` the
restricted catcher position, while the feasible placement `asgB` satisfies
all constraints and gives `P1` no restricted position; so an optimal solution
may assign a restricted position even when a constraint-satisfying
non-restricted alternative for that player exists. -/
theorem c8_counterexample :
    milpOptimal reqC8 asgA zeroD ∧
    milpFeasible reqC8 asgB zeroD ∧
    (∀ i ∈ innings reqC8, ∀ pos : String, asgB "P1" i pos = true →
      pos ∉ reqC8.restricted "P1") ∧
    "P1" ∈ reqC8.players ∧ (1 : ℕ) ∈ innings reqC8 ∧
    "C" ∈ reqC8.restricted "P1" ∧ asgA "P1" 1 "C" = true := by
  have hfeA : milpFeasible reqC8 asgA zeroD :=
    ⟨by decide, devOk_zeroD reqC8 asgA (fun _ _ => rfl) (by decide) (by decide)⟩
  have hfeB : milpFeasible reqC8 asgB zeroD :=
    ⟨by decide, devOk_zeroD reqC8 asgB (fun _ _ => rfl) (by decide) (by decide)⟩
  refine ⟨⟨hfeA, ?_⟩, hfeB, ?_, by decide, by decide, by decide, by decide⟩
  · intro asg2 d2 h2
    rw [objVal_asgA]
    exact reqC8_obj_lower asg2 d2 h2
  · intro i hi pos h
    have hi1 : i = 1 := by
      have hb := (mem_innings_iff reqC8 i).mp hi
      have : reqC8.game_innings = 1 := rfl
      omega
    subst hi1
    unfold asgB at h
    rw [Bool.and_eq_true] at h
    have hmem : ("P1", pos) ∈ asgBpairs := of_decide_eq_true h.2
    have hpos : pos = "CF" := by
      simp only [asgBpairs, List.mem_cons, List.not_mem_nil, or_false, Prod.mk.injEq] at hmem
      rcases hmem with ⟨-, h2⟩ | hmem2
      · exact h2
      · exfalso
        rcases hmem2 with ⟨h1, -⟩ | ⟨h1, -⟩ | ⟨h1, -⟩ | ⟨h1, -⟩ | ⟨h1, -⟩ | ⟨h1, -⟩ |
          ⟨h1, -⟩ | ⟨h1, -⟩
        all_goals exact absurd h1 (by decide)
    subst hpos
    decide

/-- C8 amended: when some feasible point avoids restricted positions for
every player, and the roster-times-innings product is small enough that the
restricted penalty dominates every other objective movement
(`11 * roster_size * game_innings < 1000`), an optimal solution never
assigns any player a position from their restricted set. -/
theorem c8_amended (req : Request) (asg : Asg) (d : String → ℚ)
    (hopt : milpOptimal req asg d)
    (hex : ∃ asgB2, ∃ dB2 : String → ℚ, milpFeasible req asgB2 dB2 ∧
      ∀ p ∈ req.players, ∀ i ∈ innings req, ∀ pos ∈ POSITIONS,
        asgB2 p i pos = true → pos ∉ req.restricted p)
    (hsmall : 11 * (req.players.length : ℚ) * (req.game_innings : ℚ) < 1000) :
    ∀ p ∈ req.players, ∀ i ∈ innings req, ∀ pos ∈ POSITIONS,
      pos ∈ req.restricted p → asg p i pos = false := by
  intro p hp i hi pos hpos hres
  cases hval : asg p i pos with
  | false => rfl
  | true =>
      exfalso
      obtain ⟨⟨hfA, hdA⟩, hmin⟩ := hopt
      obtain ⟨asgB2, dB2, ⟨hfB, hdB⟩, havoid⟩ := hex
      have hco : prefCoeff (req.preferred p) (req.restricted p) pos
          = RESTRICTED_POSITION_PENALTY := by
        unfold prefCoeff
        rw [if_pos hres]
      have hpen : (1000 : ℚ) ≤ prefPenaltyTotal req asg := by
        have hcell := prefPenaltyTotal_ge_cell req asg p i pos hp hi hpos hval
        rw [hco] at hcell
        exact hcell
      have hlow : (req.players.map (devAbs req asg)).sum + 1000 ≤ objVal req asg d := by
        have hge := objVal_ge req asg d hdA
        linarith
      have hfeB2 : milpFeasible req asgB2 (devAbs req asgB2) := ⟨hfB, devOk_devAbs req asgB2⟩
      have hup := hmin asgB2 (devAbs req asgB2) hfeB2
      rw [objVal_devAbs] at hup
      have hpenB : prefPenaltyTotal req asgB2
          ≤ 10 * (req.players.length : ℚ) * (req.game_innings : ℚ) :=
        prefPenaltyTotal_le_ten req asgB2 hfB.1 havoid
      have hdevB : (req.players.map (devAbs req asgB2)).sum
          ≤ (req.players.map (devAbs req asg)).sum
            + (req.players.length : ℚ) * (req.game_innings : ℚ) := by
        have hper : ∀ p2 ∈ req.players,
            (fun p3 => devAbs req asgB2 p3) p2
              ≤ (fun p3 => devAbs req asg p3 + (req.game_innings : ℚ)) p2 :=
          fun p2 _ => devAbs_compare req asg asgB2 p2
        calc (req.players.map (devAbs req asgB2)).sum
            ≤ (req.players.map (fun p3 => devAbs req asg p3 + (req.game_innings : ℚ))).sum :=
              List.sum_le_sum hper
          _ = (req.players.map (fun p3 => devAbs req asg p3)).sum
              + (req.players.map (fun _ => (req.game_innings : ℚ))).sum := sum_map_add_q _ _ _
          _ = (req.players.map (devAbs req asg)).sum
              + (req.players.length : ℚ) * (req.game_innings : ℚ) := by
                rw [sum_map_const_q]
      nlinarith [hlow, hup, hpenB, hdevB, hsmall]

/-- C8 amended witness: at the restricted-but-avoidable request `reqW8` the
placement `asgW1` with zero deviations is optimal and the theorem yields
that `P1` does not get the restricted catcher slot. -/
theorem c8_amended_witness : asgW1 "P1" 1 "C" = false := by
  have havoid : ∀ p ∈ reqW8.players, ∀ i ∈ innings reqW8, ∀ pos ∈ POSITIONS,
      asgW1 p i pos = true → pos ∉ reqW8.restricted p := by decide
  have hfe : milpFeasible reqW8 asgW1 zeroD :=
    ⟨by decide, devOk_zeroD reqW8 asgW1 (fun _ _ => rfl) (by decide) (by decide)⟩
  have hzero : objVal reqW8 asgW1 zeroD = 0 :=
    objVal_zeroD_eq_zero reqW8 asgW1 (by decide)
  have hopt : milpOptimal reqW8 asgW1 zeroD := by
    refine ⟨hfe, ?_⟩
    intro asg2 d2 h2
    rw [hzero]
    exact objVal_nonneg reqW8 asg2 d2 h2.2
  have hsmall : 11 * (reqW8.players.length : ℚ) * (reqW8.game_innings : ℚ) < 1000 := by
    show (11 : ℚ) * ((9 : ℕ) : ℚ) * ((1 : ℕ) : ℚ) < 1000
    push_cast
    norm_num
  exact c8_amended reqW8 asgW1 zeroD hopt ⟨asgW1, zeroD, hfe, havoid⟩ hsmall
    "P1" (by decide) 1 (by decide) "C" (by decide) (by decide)
